import Mathlib

/-!
Verification of the PySys test-framework core: a shallow embedding of the
outcome model, the runner's ordered result delivery, the test container,
the performance reporter and the cleanup machinery, with theorems settling
the specified properties against the embedded code.
-/

set_option maxRecDepth 4096

namespace PySysModel

/-- Test outcome values, as defined by the framework constants.
Modelled from the spec: the constants module defining the outcome values is
not part of the sources at hand; the spec lists the ordered set
SKIPPED, BLOCKED, DUMPEDCORE, TIMEDOUT, FAILED, NOTVERIFIED, INSPECT, PASSED. -/
inductive Outcome where
  | SKIPPED
  | BLOCKED
  | DUMPEDCORE
  | TIMEDOUT
  | FAILED
  | NOTVERIFIED
  | INSPECT
  | PASSED
deriving DecidableEq, Repr, Fintype

open Outcome

/-- Modelled from the spec: the PRECEDENT list of outcomes ordered by
precedence, highest precedence first (the constants module is not in the
sources at hand; the spec gives the order explicitly). -/
def PRECEDENT : List Outcome :=
  [SKIPPED, BLOCKED, DUMPEDCORE, TIMEDOUT, FAILED, NOTVERIFIED, INSPECT, PASSED]

/-- Embeds the key function used in getOutcome, PRECEDENT.index(x). -/
def precIndex (o : Outcome) : Nat := PRECEDENT.indexOf o

/-- Embeds ProcessUser.getOutcome: if the outcome list is empty return
NOTVERIFIED, else the head of the list sorted by PRECEDENT index
(Python sorted is a stable sort; insertionSort is likewise stable). -/
def getOutcome (outcome : List Outcome) : Outcome :=
  match List.insertionSort (fun a b => precIndex a ≤ precIndex b) outcome with
  | [] => NOTVERIFIED
  | x :: _ => x

/-- Embeds Python str.strip(): drop whitespace from both ends.  (Defined over
the character list so that it evaluates inside the kernel.) -/
def pyStrip (s : String) : String :=
  String.mk (((s.data.dropWhile Char.isWhitespace).reverse.dropWhile Char.isWhitespace).reverse)

/-- The per-actor state that ProcessUser.addOutcome updates: the outcome
list and the stored outcome reason. -/
structure OutcomeState where
  outcome : List Outcome
  outcomeReason : String
deriving DecidableEq, Repr

/-- Embeds ProcessUser.addOutcome restricted to its state updates: strip the
reason, remember the old overall outcome, append the new outcome, and replace
the stored reason exactly when the overall outcome changed.  (The logging and
the optional abort raised afterwards do not alter this state.) -/
def addOutcome (s : OutcomeState) (o : Outcome) (reason : String) : OutcomeState :=
  let outcomeReason := pyStrip reason
  let old := getOutcome s.outcome
  let newList := s.outcome ++ [o]
  { outcome := newList
    outcomeReason := if getOutcome newList ≠ old then outcomeReason else s.outcomeReason }

/-- Python dict assignment on an association list that preserves insertion
order: replace the first binding of the key in place, else append. -/
def dictSet {α β : Type} [DecidableEq α] : List (α × β) → α → β → List (α × β)
  | [], k, v => [(k, v)]
  | (k0, v0) :: rest, k, v =>
    if k0 = k then (k, v) :: rest else (k0, v0) :: dictSet rest k v

/-- Python dict lookup on an association list. -/
def dictGet? {α β : Type} [DecidableEq α] : List (α × β) → α → Option β
  | [], _ => none
  | (k0, v0) :: rest, k => if k0 = k then some v0 else dictGet? rest k

/-- Embeds ProcessUser.allocateUniqueStdOutErr.  The per-actor state is the
uniqueProcessKeys dictionary; newval = get(processKey, -1) + 1 is stored back,
and the suffix is ".newval" when newval > 0, else empty.  The function
returns the new state and the two allocated basenames (the code prefixes
them with the actor's output directory, which does not affect basenames). -/
def allocateUniqueStdOutErr (m : List (String × Int)) (processKey : String) :
    List (String × Int) × (String × String) :=
  let newval : Int := ((dictGet? m processKey).getD (-1)) + 1
  let m2 := dictSet m processKey newval
  let suffix := if newval > 0 then "." ++ toString newval else ""
  (m2, (processKey ++ suffix ++ ".out", processKey ++ suffix ++ ".err"))

/-- Runs a sequence of allocateUniqueStdOutErr calls from a given dictionary
state, collecting the allocated basename pairs in call order. -/
def allocRun : List String → List (String × Int) → List (String × String)
  | [], _ => []
  | k :: ks, m =>
    let r := allocateUniqueStdOutErr m k
    r.2 :: allocRun ks r.1

/-- Attempts to match the regex pattern run.log at the head of a character
list: literal r, u, n, then any character other than a newline (the
unescaped dot), then literal l, o, g. -/
def runLogMatchHere : List Char → Bool
  | 'r' :: 'u' :: 'n' :: c :: 'l' :: 'o' :: 'g' :: _ => c != '\n'
  | _ => false

/-- Embeds re.search of the pattern run.log in a file name: the pattern is
tried at every position of the string. -/
def runLogSearch : List Char → Bool
  | [] => false
  | c :: rest => runLogMatchHere (c :: rest) || runLogSearch rest

/-- One entry of the output-directory listing that testComplete iterates
over: a file name and its size in bytes. -/
structure OutFile where
  name : String
  size : Nat
deriving DecidableEq, Repr

/-- Embeds BaseRunner.testComplete acting on the output-directory listing:
removeNonZero is purge with every recorded outcome PASSED, and a file is
removed when its size is zero or when removeNonZero holds and its name does
not contain a match of the regex run.log.  Removal is modelled as
succeeding (the code retries a failed removal up to three times at 100 ms
and then leaves the file behind).  Returns the files left in place. -/
def testComplete (purge : Bool) (outcome : List Outcome) (files : List OutFile) :
    List OutFile :=
  let removeNonZero := purge && outcome.all (fun o => o == Outcome.PASSED)
  files.filter (fun f => !(f.size == 0 || (removeNonZero && !runLogSearch f.name.data)))

/-- A supervised child process handle.  Modelled from the spec: the process
helper module is not among the sources at hand; the spec specifies that stop
is idempotent and that a stopped process has running()==false. -/
structure Proc where
  pid : Nat
  running : Bool
deriving DecidableEq, Repr

/-- Modelled from the spec: stopping a process leaves it not running. -/
def stopProc (p : Proc) : Proc := { p with running := false }

/-- A registered cleanup function: an identity (Python compares functions
with object identity) plus whether invoking it raises. -/
structure CleanupFn where
  id : Nat
  raises : Bool
deriving DecidableEq, Repr

/-- The ProcessUser state that the cleanup machinery manipulates. -/
structure PUState where
  cleanupFunctions : List CleanupFn
  processList : List Proc
deriving DecidableEq, Repr

/-- Embeds ProcessUser.addCleanupFunction: if fn is truthy (not None) and
not already registered, push it onto the stack. -/
def addCleanupFunction (s : PUState) (fn : Option CleanupFn) : PUState :=
  match fn with
  | none => s
  | some f =>
    if f ∈ s.cleanupFunctions then s
    else { s with cleanupFunctions := s.cleanupFunctions ++ [f] }

/-- The loop over the reversed cleanup-function stack: each invocation is
wrapped in its own try/except, so a function that raises is logged and the
loop continues; every function is therefore invoked.  Returns the functions
in invocation order. -/
def runCleanupFns : List CleanupFn → List CleanupFn
  | [] => []
  | f :: rest => f :: runCleanupFns rest

/-- The loop over the process list: each still-running process is stopped
(the stop itself is guarded by a try/except).  Returns the handles after
the loop. -/
def stopProcesses : List Proc → List Proc
  | [] => []
  | p :: rest => (if p.running then stopProc p else p) :: stopProcesses rest

/-- Embeds ProcessUser.cleanup: run the registered functions most recently
added first, then (in a finally block) stop every still-running process,
then clear the function stack, the process list and the process counters.
Returns the new state, the functions in invocation order and the process
handles after the stop loop. -/
def cleanup (s : PUState) : PUState × List CleanupFn × List Proc :=
  let executed := runCleanupFns s.cleanupFunctions.reverse
  let stopped := stopProcesses s.processList
  (⟨[], []⟩, executed, stopped)

/-- A record held by the performance reporter for an already-reported
resultKey: the reporting test's id, the hash of the test object that
reported it, and the details dictionary d (the resultDetails with the
testId entry assigned). -/
structure PrevResult where
  testId : String
  testObjHash : Nat
  details : List (String × String)
deriving DecidableEq, Repr

/-- How the duplicate-key policy of reportResult answers a call. -/
inductive ReportAnswer where
  | blockedAlreadyUsed
  | blockedNotUnique
  | accepted
deriving DecidableEq, Repr

/-- Embeds the duplicate-key policy of CSVPerformanceReporter.reportResult
(the section under the reporter's lock).  d is the resultDetails dictionary
with testId assigned.  A key seen before is answered blockedAlreadyUsed —
addOutcome(BLOCKED, resultKey already used by this test) and an early
return before any persistence — when the stored test-object hash equals the
current one; blockedNotUnique — addOutcome(BLOCKED, resultKey must be
unique across all tests and modes) and an early return — when the stored
testId or the stored details differ; and accepted otherwise.  A fresh key
is stored and accepted.  Persistence of an accepted result is additionally
skipped when the test's outcome is already a failure, which applies to
fresh and repeated keys alike. -/
def reportResultDup (prev : List (String × PrevResult)) (resultKey : String)
    (testId : String) (testObjHash : Nat) (resultDetails : List (String × String)) :
    List (String × PrevResult) × ReportAnswer :=
  let d := dictSet resultDetails "testId" testId
  match dictGet? prev resultKey with
  | some prevresult =>
    if prevresult.testObjHash = testObjHash then
      (prev, ReportAnswer.blockedAlreadyUsed)
    else if prevresult.testId ≠ testId ∨ prevresult.details ≠ d then
      (prev, ReportAnswer.blockedNotUnique)
    else
      (prev, ReportAnswer.accepted)
  | none =>
    (dictSet prev resultKey ⟨testId, testObjHash, d⟩, ReportAnswer.accepted)

/-- What a container invocation's collaborator code does when called:
returns normally, raises an ordinary exception, or raises
KeyboardInterrupt. -/
inductive PhaseResult where
  | ok
  | raises
  | kbrdInt
deriving DecidableEq, Repr

/-- The behavior of the collaborators of one TestContainer invocation:
the early steps (output directory creation, purge, log-handler
installation — exceptions there are collected into exc_info,
KeyboardInterrupt sets kbrdInt), the module import and test instantiation
(failures are likewise collected, with a placeholder test object
substituted), the descriptor dispatch conditions, the three test phases,
core-file detection, and the test's cleanup call. -/
structure ContainerEnv where
  earlySetup : PhaseResult
  importResult : PhaseResult
  descriptorRunnable : Bool
  modeMismatch : Bool
  setup : PhaseResult
  execute : PhaseResult
  validate : PhaseResult
  coreDetected : Bool
  cleanup : PhaseResult
deriving DecidableEq, Repr

/-- What the container hands back to the runner: the outcomes recorded on
the test object and the keyboard-interrupt flag on the record. -/
structure ContainerRecord where
  outcome : List Outcome
  kbrdInt : Bool
deriving DecidableEq, Repr

/-- Embeds the setup/execute/validate try block of TestContainer.__call__:
the first phase to raise ends the block — an ordinary exception is caught
and adds BLOCKED, KeyboardInterrupt is caught, adds BLOCKED and sets the
kbrdInt flag; if all three return, a detected core file adds DUMPEDCORE.
Returns the outcomes added and the kbrdInt flag contribution. -/
def runTestPhases (env : ContainerEnv) : List Outcome × Bool :=
  match env.setup with
  | PhaseResult.raises => ([Outcome.BLOCKED], false)
  | PhaseResult.kbrdInt => ([Outcome.BLOCKED], true)
  | PhaseResult.ok =>
    match env.execute with
    | PhaseResult.raises => ([Outcome.BLOCKED], false)
    | PhaseResult.kbrdInt => ([Outcome.BLOCKED], true)
    | PhaseResult.ok =>
      match env.validate with
      | PhaseResult.raises => ([Outcome.BLOCKED], false)
      | PhaseResult.kbrdInt => ([Outcome.BLOCKED], true)
      | PhaseResult.ok =>
        (if env.coreDetected then [Outcome.DUMPEDCORE] else [], false)

/-- Embeds the dispatch branches of TestContainer.__call__ (step 5) in the
case where the test object was assigned, i.e. the import block did not
raise KeyboardInterrupt: descriptor not runnable adds SKIPPED; a required
mode missing adds SKIPPED; collected early exceptions add BLOCKED; an
early KeyboardInterrupt adds BLOCKED; otherwise the three phases run.
Returns the outcomes added so far and the kbrdInt flag after step 5. -/
def dispatchOutcomes (env : ContainerEnv) : List Outcome × Bool :=
  let kbrdEarly := env.earlySetup == PhaseResult.kbrdInt
  let excCount := (if env.earlySetup = PhaseResult.raises then 1 else 0) +
    (if env.importResult = PhaseResult.raises then 1 else 0)
  if env.descriptorRunnable = false then ([Outcome.SKIPPED], kbrdEarly)
  else if env.modeMismatch then ([Outcome.SKIPPED], kbrdEarly)
  else if excCount > 0 then ([Outcome.BLOCKED], kbrdEarly)
  else if kbrdEarly then ([Outcome.BLOCKED], true)
  else runTestPhases env

/-- Embeds the whole dispatch try/except statement of
TestContainer.__call__ (step 5).  When the import block raised
KeyboardInterrupt, only the kbrdInt flag was set: the placeholder BaseTest
is assigned in the import block's ordinary except branch only, so testObj
is still None.  Whichever dispatch branch then runs raises AttributeError
on None, the bare except handler raises AttributeError once more from
testObj.addOutcome(BLOCKED), and that exception escapes the try statement
— modelled as none.  Otherwise the dispatch completes, yielding the
outcomes added and the kbrdInt flag. -/
def containerDispatch (env : ContainerEnv) : Option (List Outcome × Bool) :=
  if env.importResult = PhaseResult.kbrdInt then none
  else some (dispatchOutcomes env)

/-- Embeds TestContainer.__call__ end to end: when the dispatch stage
raised out of its own handler, the exception leaves __call__ before the
cleanup try block is reached — cleanup() is never invoked and no record is
returned (Except.error).  Otherwise the test's cleanup() is invoked inside
a try that catches ONLY KeyboardInterrupt (which adds BLOCKED and sets the
kbrdInt flag); an ordinary exception raised by cleanup() therefore
propagates out of the container to its caller (Except.error).  The closing
summary block is wrapped in a bare try/except and cannot throw. -/
def containerCall (env : ContainerEnv) : Except Unit ContainerRecord :=
  match containerDispatch env with
  | none => Except.error ()
  | some d =>
    match env.cleanup with
    | PhaseResult.raises => Except.error ()
    | PhaseResult.kbrdInt => Except.ok ⟨d.1 ++ [Outcome.BLOCKED], true⟩
    | PhaseResult.ok => Except.ok ⟨d.1, d.2⟩

/-- The runner state relevant to ordered result delivery: the staging
buffer resultsQueue (slot i holds the container with counter i once that
container has completed, cleared again once published), the publish cursor
resultsPointer, and the sequence of container indices published so far.
Publishing slot i flushes the container's buffered log, logs the outcome
line, calls testComplete, forwards the result to every writer and tallies
the outcome, all in the same loop iteration, so the one published sequence
models all of those channels. -/
structure RunnerState where
  resultsQueue : List (Option Nat)
  resultsPointer : Nat
  published : List Nat
deriving DecidableEq, Repr

/-- The publish loop inside containerCallback: for i in
range(resultsPointer, len(resultsQueue)), stop at the first empty slot,
otherwise publish the container in slot i, clear the slot and advance the
pointer.  The fuel argument bounds the iteration count; the caller passes
the queue length, which always suffices. -/
def publishFrom (fuel : Nat) (q : List (Option Nat)) (p : Nat) (pub : List Nat) :
    List (Option Nat) × Nat × List Nat :=
  match fuel with
  | 0 => (q, p, pub)
  | fuel + 1 =>
    match q.getD p none with
    | none => (q, p, pub)
    | some c => publishFrom fuel (q.set p none) (p + 1) (pub ++ [c])

/-- Embeds BaseRunner.containerCallback: store the completed container into
the slot given by its counter, then run the publish loop from the current
results pointer. -/
def containerCallback (s : RunnerState) (counter : Nat) : RunnerState :=
  let q := s.resultsQueue.set counter (some counter)
  let r := publishFrom q.length q s.resultsPointer s.published
  ⟨r.1, r.2.1, r.2.2⟩

/-- The runner state at the start of a cycle with n submitted descriptors:
n empty staging slots, cursor zero, nothing published. -/
def initRunner (n : Nat) : RunnerState :=
  ⟨List.replicate n none, 0, []⟩

/-- The invariant tying a runner state to the set C of containers whose
callbacks have run: the queue length is the descriptor count, the published
sequence is exactly 0..resultsPointer-1, every published index has
completed, the slot at the cursor is empty (the loop has reached its
fixpoint), and slot i is filled with container i exactly when i has
completed but is not yet published. -/
def RunnerInv (n : Nat) (C : List Nat) (s : RunnerState) : Prop :=
  s.resultsQueue.length = n ∧
  s.resultsPointer ≤ n ∧
  s.published = List.range s.resultsPointer ∧
  (∀ i, i < s.resultsPointer → i ∈ C) ∧
  (s.resultsPointer < n → s.resultsPointer ∉ C) ∧
  (∀ i, i < n → s.resultsQueue.getD i none =
    if i ∈ C ∧ s.resultsPointer ≤ i then some i else none)

/-- One parsed row of a CSV performance file, with the columns the parser
produces: the resultKey, the float columns value/toleranceStdDevs/stdDev
(modelled as reals), unit and biggerIsBetter, the integer samples column,
and the resultDetails dictionary. -/
structure PerfResult where
  resultKey : String
  value : ℝ
  unit : String
  biggerIsBetter : Bool
  toleranceStdDevs : ℝ
  samples : Nat
  stdDev : ℝ
  resultDetails : List (String × String)

/-- A parsed CSV performance file: its runDetails and its result rows. -/
structure PerfFile where
  runDetails : List (String × String)
  results : List PerfResult

/-- Embeds the merge step of CSVPerformanceFile.aggregate for an existing
entry e and a new row r with the same resultKey: the combined mean, the
pooled Bessel-corrected sample standard deviation computed from the old
field values, the summed sample count, and the latest resultDetails; the
remaining fields keep e's values.  Arithmetic is over the reals, embedding
the Python float arithmetic. -/
noncomputable def mergeResult (e r : PerfResult) : PerfResult :=
  let combinedmean := (e.value * (e.samples : ℝ) + r.value * (r.samples : ℝ)) /
    ((e.samples : ℝ) + (r.samples : ℝ))
  { e with
    stdDev := Real.sqrt (
      (((e.samples : ℝ) - 1) * e.stdDev ^ 2
        + ((r.samples : ℝ) - 1) * r.stdDev ^ 2
        + (e.samples : ℝ) * (e.value - combinedmean) ^ 2
        + (r.samples : ℝ) * (r.value - combinedmean) ^ 2)
      / ((e.samples : ℝ) + (r.samples : ℝ) - 1))
    value := combinedmean
    samples := e.samples + r.samples
    resultDetails := r.resultDetails }

/-- Embeds the per-row step of aggregate: a row whose resultKey is new is
inserted into the results dictionary; a row whose resultKey exists is
merged into the existing entry. -/
noncomputable def aggregateStep (acc : List (String × PerfResult)) (r : PerfResult) :
    List (String × PerfResult) :=
  match dictGet? acc r.resultKey with
  | none => acc ++ [(r.resultKey, r)]
  | some e => dictSet acc r.resultKey (mergeResult e r)

/-- Embeds the run-details accumulation of aggregate: each key maps to the
list of distinct values seen for it, in first-seen order. -/
def addRunDetail (details : List (String × List String)) (kv : String × String) :
    List (String × List String) :=
  match dictGet? details kv.1 with
  | none => details ++ [(kv.1, [kv.2])]
  | some vs => if kv.2 ∈ vs then details else dictSet details kv.1 (vs ++ [kv.2])

/-- Embeds CSVPerformanceFile.aggregate: fold the files (skipping files
with no results, whose runDetails are then not included either), merging
rows by resultKey; the output rows are sorted by resultKey and each
runDetails key maps to its sorted distinct values joined with a
semicolon and space. -/
noncomputable def aggregate (files : List PerfFile) : PerfFile :=
  let step := fun (acc : List (String × PerfResult) × List (String × List String))
      (f : PerfFile) =>
    if f.results.isEmpty then acc
    else (f.results.foldl aggregateStep acc.1, f.runDetails.foldl addRunDetail acc.2)
  let fin := files.foldl step ([], [])
  { runDetails := fin.2.map (fun kv =>
      (kv.1, String.intercalate "; " (List.insertionSort (fun a b => a ≤ b) kv.2)))
    results := (List.insertionSort (fun a b => a.1 ≤ b.1) fin.1).map (fun kv => kv.2) }

instance : IsTotal Outcome (fun a b => precIndex a ≤ precIndex b) :=
  ⟨fun a b => Nat.le_total (precIndex a) (precIndex b)⟩

instance : IsTrans Outcome (fun a b => precIndex a ≤ precIndex b) :=
  ⟨fun _ _ _ hab hbc => Nat.le_trans hab hbc⟩

end PySysModel

namespace PySysModel

theorem precIndex_injective : ∀ a b : Outcome, precIndex a = precIndex b → a = b := by
  decide

theorem getOutcome_nil : getOutcome [] = Outcome.NOTVERIFIED := rfl

theorem getOutcome_mem {l : List Outcome} (h : l ≠ []) : getOutcome l ∈ l := by
  unfold getOutcome
  rcases hs : List.insertionSort (fun a b => precIndex a ≤ precIndex b) l with _ | ⟨x, xs⟩
  · have hp := List.perm_insertionSort (fun a b => precIndex a ≤ precIndex b) l
    rw [hs] at hp
    exact absurd hp.symm.eq_nil h
  · have hx : x ∈ List.insertionSort (fun a b => precIndex a ≤ precIndex b) l := by
      rw [hs]; exact List.mem_cons_self x xs
    exact (List.perm_insertionSort _ l).mem_iff.mp hx

theorem getOutcome_min {l : List Outcome} (h : l ≠ []) :
    ∀ o ∈ l, precIndex (getOutcome l) ≤ precIndex o := by
  intro o ho
  unfold getOutcome
  rcases hs : List.insertionSort (fun a b => precIndex a ≤ precIndex b) l with _ | ⟨x, xs⟩
  · have hp := List.perm_insertionSort (fun a b => precIndex a ≤ precIndex b) l
    rw [hs] at hp
    exact absurd hp.symm.eq_nil h
  · have hsorted : List.Sorted (fun a b => precIndex a ≤ precIndex b)
        (List.insertionSort (fun a b => precIndex a ≤ precIndex b) l) := by
      refine List.sorted_insertionSort _ l
    rw [hs] at hsorted
    have hmem : o ∈ x :: xs := by
      rw [← hs]
      exact (List.perm_insertionSort _ l).mem_iff.mpr ho
    rcases List.mem_cons.mp hmem with rfl | hmem
    · exact le_refl _
    · exact List.rel_of_sorted_cons hsorted o hmem

theorem getOutcome_append_of_le {l : List Outcome} {o : Outcome} (hne : l ≠ [])
    (hle : precIndex (getOutcome l) ≤ precIndex o) :
    getOutcome (l ++ [o]) = getOutcome l := by
  have hne2 : l ++ [o] ≠ [] := by simp
  have h1 : precIndex (getOutcome (l ++ [o])) ≤ precIndex (getOutcome l) :=
    getOutcome_min hne2 _ (List.mem_append_left _ (getOutcome_mem hne))
  have h2 : precIndex (getOutcome l) ≤ precIndex (getOutcome (l ++ [o])) := by
    rcases List.mem_append.mp (getOutcome_mem hne2) with hmem | hmem
    · exact getOutcome_min hne _ hmem
    · rw [List.mem_singleton.mp hmem]; exact hle
  exact precIndex_injective _ _ (Nat.le_antisymm h1 h2)

/-- C2: getOutcome() returns the outcome of the outcome list with minimum
index in the precedence order SKIPPED, BLOCKED, DUMPEDCORE, TIMEDOUT, FAILED,
NOTVERIFIED, INSPECT, PASSED, and returns NOTVERIFIED on an empty list. -/
theorem C2_getOutcome_minimum (l : List Outcome) :
    (l = [] → getOutcome l = Outcome.NOTVERIFIED) ∧
    (l ≠ [] → getOutcome l ∈ l ∧ ∀ o ∈ l, precIndex (getOutcome l) ≤ precIndex o) ∧
    PRECEDENT = [Outcome.SKIPPED, Outcome.BLOCKED, Outcome.DUMPEDCORE, Outcome.TIMEDOUT,
      Outcome.FAILED, Outcome.NOTVERIFIED, Outcome.INSPECT, Outcome.PASSED] := by
  refine ⟨fun h => by subst h; rfl, fun h => ⟨getOutcome_mem h, getOutcome_min h⟩, rfl⟩

/-- Witness for C2 at the concrete list [PASSED, FAILED, PASSED]. -/
theorem C2_getOutcome_minimum_witness :
    getOutcome [Outcome.PASSED, Outcome.FAILED, Outcome.PASSED] ∈
      [Outcome.PASSED, Outcome.FAILED, Outcome.PASSED] ∧
    precIndex (getOutcome [Outcome.PASSED, Outcome.FAILED, Outcome.PASSED]) ≤
      precIndex Outcome.PASSED := by
  obtain ⟨-, h2, -⟩ := C2_getOutcome_minimum [Outcome.PASSED, Outcome.FAILED, Outcome.PASSED]
  obtain ⟨hm, hmin⟩ := h2 (by decide)
  exact ⟨hm, hmin _ (by decide)⟩

/-- C4 counterexample: on a fresh state (empty outcome list, empty reason),
the overall outcome is NOTVERIFIED; adding PASSED — an outcome of LOWER
precedence than the current overall outcome — nevertheless replaces the
stored reason, because the overall outcome changes from NOTVERIFIED to
PASSED.  The claim says the reason would be left unchanged. -/
theorem C4_counterexample :
    precIndex (getOutcome ([] : List Outcome)) ≤ precIndex Outcome.PASSED ∧
    (addOutcome ⟨[], ""⟩ Outcome.PASSED "all good").outcomeReason = "all good" ∧
    "all good" ≠ "" := by
  refine ⟨by decide, rfl, by decide⟩

/-- C4 (amended): the stored reason is replaced exactly when the call changes
the overall outcome as returned by getOutcome (in which case it becomes the
stripped reason given); in particular, when the outcome list is NONEMPTY,
adding an outcome whose precedence is lower than or equal to the current
overall outcome leaves the stored reason unchanged.  (From the empty state
the original claim fails: adding any outcome, even PASSED, installs its
reason, as the overall outcome changes from the virtual NOTVERIFIED.) -/
theorem C4_reason_update (s : OutcomeState) (o : Outcome) (r : String) :
    ((addOutcome s o r).outcomeReason =
      if getOutcome (s.outcome ++ [o]) ≠ getOutcome s.outcome then pyStrip r
      else s.outcomeReason) ∧
    (s.outcome ≠ [] → precIndex (getOutcome s.outcome) ≤ precIndex o →
      (addOutcome s o r).outcomeReason = s.outcomeReason) := by
  constructor
  · rfl
  · intro hne hle
    show (if getOutcome (s.outcome ++ [o]) ≠ getOutcome s.outcome then pyStrip r
      else s.outcomeReason) = s.outcomeReason
    rw [if_neg]
    simp [getOutcome_append_of_le hne hle]

/-- Witness for C4 (amended): a state with overall outcome FAILED and reason
set keeps its reason when PASSED is added. -/
theorem C4_reason_update_witness :
    (addOutcome ⟨[Outcome.FAILED], "why"⟩ Outcome.PASSED "x").outcomeReason = "why" :=
  (C4_reason_update ⟨[Outcome.FAILED], "why"⟩ Outcome.PASSED "x").2 (by decide) (by decide)

/-- C3 (evaluation at the failing input): starting from a fresh actor, the
call sequence with keys key, key, key, keyb produces basenames
key.out, key.1.out, key.2.out, keyb.out — the SECOND call with the same key
yields suffix ".1", not ".2".  The claim (and the repository's own test
PySys_internal_058, which asserts key.out, key.2.out, key.3.out, keyb.out)
expects the second call to yield ".2", so the code contradicts its own test:
newval = get(key,-1)+1 is interpolated directly into the suffix instead of
newval+1. -/
theorem C3_allocateUnique_code_bug :
    allocRun ["key", "key", "key", "keyb"] [] =
      [("key.out", "key.err"), ("key.1.out", "key.1.err"),
       ("key.2.out", "key.2.err"), ("keyb.out", "keyb.err")] ∧
    ("key.1.out", "key.1.err") ≠ ("key.2.out", "key.2.err") := by
  constructor
  · rfl
  · decide

theorem runCleanupFns_eq (l : List CleanupFn) : runCleanupFns l = l := by
  induction l with
  | nil => rfl
  | cons f rest ih => simp [runCleanupFns, ih]

theorem stopProcesses_not_running (l : List Proc) :
    ∀ p ∈ stopProcesses l, p.running = false := by
  induction l with
  | nil => intro p hp; cases hp
  | cons q rest ih =>
    intro p hp
    rcases List.mem_cons.mp hp with rfl | hp
    · by_cases hq : q.running <;> simp [hq, stopProc]
    · exact ih p hp

/-- C7 counterexample: with purge enabled and a single PASSED outcome, a
nonzero file named runxlog is NOT removed — the code keeps every file whose
name contains a match of the regex run.log, whose unescaped dot matches any
character — although the claim says every file except run.log is removed. -/
theorem C7_counterexample :
    testComplete true [Outcome.PASSED] [⟨"runxlog", 5⟩] = [⟨"runxlog", 5⟩] ∧
    "runxlog" ≠ "run.log" := by
  constructor
  · rfl
  · decide

/-- C7 (amended): testComplete removes exactly the zero-length files when
purge is disabled or some outcome is not PASSED; when purge is enabled and
every outcome is PASSED it removes exactly the files that are zero-length
or whose name contains no match of the regex run.log — the literal file
run.log is kept, but so is any nonzero file whose name contains the letters
run, any character, log (for example runxlog or foo_run.log.bak), because
the pattern's dot is unescaped and the search is unanchored.  Removals are
modelled as succeeding; the code retries each failed removal up to three
times at 100 ms. -/
theorem C7_testComplete_purge (purge : Bool) (outcome : List Outcome)
    (files : List OutFile) :
    ((purge = false ∨ ¬ ∀ o ∈ outcome, o = Outcome.PASSED) →
      testComplete purge outcome files = files.filter (fun f => f.size != 0)) ∧
    ((purge = true ∧ ∀ o ∈ outcome, o = Outcome.PASSED) →
      testComplete purge outcome files =
        files.filter (fun f => f.size != 0 && runLogSearch f.name.data)) := by
  constructor
  · intro h
    have hrnz : (purge && outcome.all (fun o => o == Outcome.PASSED)) = false := by
      rcases h with h | h
      · simp [h]
      · cases hall : outcome.all (fun o => o == Outcome.PASSED) with
        | false => simp
        | true => exact absurd (fun o ho => by simpa using List.all_eq_true.mp hall o ho) h
    simp only [testComplete]
    rw [hrnz]
    simp only [Bool.false_and, Bool.or_false]
    rfl
  · rintro ⟨hp, hpass⟩
    have hrnz : (purge && outcome.all (fun o => o == Outcome.PASSED)) = true := by
      subst hp
      simp only [Bool.true_and, List.all_eq_true]
      intro o ho
      simpa using hpass o ho
    simp only [testComplete]
    rw [hrnz]
    simp only [Bool.true_and, Bool.not_or, Bool.not_not]
    rfl

/-- Witness for C7 (amended) on concrete listings: with purge off the
zero-length file goes and the nonzero one stays; with purge on and a PASSED
outcome only run.log survives of the nonzero files. -/
theorem C7_testComplete_purge_witness :
    testComplete false [Outcome.FAILED] [⟨"a.txt", 0⟩, ⟨"b.txt", 3⟩] = [⟨"b.txt", 3⟩] ∧
    testComplete true [Outcome.PASSED] [⟨"run.log", 7⟩, ⟨"b.txt", 3⟩, ⟨"c.txt", 0⟩] =
      [⟨"run.log", 7⟩] := by
  constructor
  · rw [(C7_testComplete_purge false [Outcome.FAILED] [⟨"a.txt", 0⟩, ⟨"b.txt", 3⟩]).1
      (Or.inl rfl)]
    rfl
  · rw [(C7_testComplete_purge true [Outcome.PASSED]
      [⟨"run.log", 7⟩, ⟨"b.txt", 3⟩, ⟨"c.txt", 0⟩]).2 ⟨rfl, by decide⟩]
    rfl

/-- C9: cleanup() invokes the registered cleanup functions in LIFO order —
every registered function is invoked, raising or not, since each call is
individually guarded — then stops every still-running process in the
process list; afterwards no process handle of the list is running, both the
function stack and the process list are empty, and a second cleanup()
performs no further work. -/
theorem C9_cleanup (s : PUState) :
    (cleanup s).2.1 = s.cleanupFunctions.reverse ∧
    (∀ p ∈ (cleanup s).2.2, p.running = false) ∧
    (cleanup s).1.cleanupFunctions = [] ∧
    (cleanup s).1.processList = [] ∧
    cleanup (cleanup s).1 = (⟨[], []⟩, [], []) := by
  refine ⟨runCleanupFns_eq _, stopProcesses_not_running _, rfl, rfl, rfl⟩

/-- Witness for C9 on a concrete state: two functions (the second of which
raises) run most recent first, and a running process ends up stopped. -/
theorem C9_cleanup_witness :
    (cleanup ⟨[⟨1, false⟩, ⟨2, true⟩], [⟨10, true⟩]⟩).2.1 = [⟨2, true⟩, ⟨1, false⟩] ∧
    (⟨10, false⟩ : Proc).running = false := by
  have h := C9_cleanup ⟨[⟨1, false⟩, ⟨2, true⟩], [⟨10, true⟩]⟩
  refine ⟨h.1.trans (by decide), h.2.1 ⟨10, false⟩ (by decide)⟩

/-- C10: addCleanupFunction is idempotent at the interface: registering the
same function twice equals registering it once, registering a falsy value
is the identity, and a function registered through addCleanupFunction
occurs exactly once in the stack (if it was not already registered more
than once), so cleanup() invokes it exactly once. -/
theorem C10_addCleanupFunction_idempotent (s : PUState) (f : CleanupFn) :
    addCleanupFunction (addCleanupFunction s (some f)) (some f) =
      addCleanupFunction s (some f) ∧
    addCleanupFunction s none = s ∧
    (addCleanupFunction s (some f)).cleanupFunctions.count f =
      max (s.cleanupFunctions.count f) 1 ∧
    (s.cleanupFunctions.count f ≤ 1 →
      (cleanup (addCleanupFunction s (some f))).2.1.count f = 1) := by
  have hcount : (addCleanupFunction s (some f)).cleanupFunctions.count f =
      max (s.cleanupFunctions.count f) 1 := by
    unfold addCleanupFunction
    by_cases hmem : f ∈ s.cleanupFunctions
    · have h1 : 1 ≤ s.cleanupFunctions.count f := List.count_pos_iff.mpr hmem
      simp [hmem, Nat.max_eq_left h1]
    · have h0 : s.cleanupFunctions.count f = 0 := List.count_eq_zero.mpr hmem
      simp [hmem, h0]
  refine ⟨?_, rfl, hcount, ?_⟩
  · unfold addCleanupFunction
    by_cases hmem : f ∈ s.cleanupFunctions
    · simp [hmem]
    · simp [hmem]
  · intro hle
    show (runCleanupFns (addCleanupFunction s (some f)).cleanupFunctions.reverse).count f = 1
    rw [runCleanupFns_eq, List.count_reverse, hcount]
    omega

/-- Witness for C10 on a fresh actor: double registration equals single
registration, and the registered function is invoked exactly once by
cleanup. -/
theorem C10_addCleanupFunction_idempotent_witness :
    addCleanupFunction (addCleanupFunction ⟨[], []⟩ (some ⟨1, false⟩)) (some ⟨1, false⟩) =
      addCleanupFunction ⟨[], []⟩ (some ⟨1, false⟩) ∧
    (cleanup (addCleanupFunction ⟨[], []⟩ (some ⟨1, false⟩))).2.1.count ⟨1, false⟩ = 1 := by
  have h := C10_addCleanupFunction_idempotent ⟨[], []⟩ ⟨1, false⟩
  exact ⟨h.1, h.2.2.2 (by decide)⟩

/-- C5 counterexample: a container whose phases all succeed but whose test
cleanup() raises an ordinary exception propagates that exception to its
caller — the cleanup try block catches only KeyboardInterrupt — although
the claim says the container never propagates and always returns its
record. -/
theorem C5_counterexample :
    containerCall ⟨PhaseResult.ok, PhaseResult.ok, true, false, PhaseResult.ok,
      PhaseResult.ok, PhaseResult.ok, false, PhaseResult.raises⟩ = Except.error () := rfl

/-- C5 (amended): unhandled exceptions during the setup/execute/validate
phases are caught inside the container and recorded as BLOCKED; during the
test's cleanup() only KeyboardInterrupt is caught (adding BLOCKED and
setting the kbrdInt flag).  The container fails to return its record in
exactly two situations: an ordinary exception raised by cleanup(), which
propagates to the caller; and a KeyboardInterrupt raised during the
test-class import, which leaves testObj None so that the dispatch raises
AttributeError out of the container before cleanup() is ever called.  In
every other case the container returns its record; the escaping exceptions
are logged by the runner's containerExceptionCallback. -/
theorem C5_container_exceptions (env : ContainerEnv) :
    (env.importResult = PhaseResult.kbrdInt → containerCall env = Except.error ()) ∧
    (env.importResult ≠ PhaseResult.kbrdInt → env.cleanup = PhaseResult.ok →
      containerCall env =
        Except.ok ⟨(dispatchOutcomes env).1, (dispatchOutcomes env).2⟩) ∧
    (env.importResult ≠ PhaseResult.kbrdInt → env.cleanup = PhaseResult.kbrdInt →
      containerCall env =
        Except.ok ⟨(dispatchOutcomes env).1 ++ [Outcome.BLOCKED], true⟩) ∧
    (env.cleanup = PhaseResult.raises → containerCall env = Except.error ()) ∧
    (env.descriptorRunnable = true → env.modeMismatch = false →
      env.earlySetup = PhaseResult.ok → env.importResult = PhaseResult.ok →
      (env.setup = PhaseResult.raises ∨
        (env.setup = PhaseResult.ok ∧ env.execute = PhaseResult.raises) ∨
        (env.setup = PhaseResult.ok ∧ env.execute = PhaseResult.ok ∧
          env.validate = PhaseResult.raises)) →
      dispatchOutcomes env = ([Outcome.BLOCKED], false)) := by
  refine ⟨?_, ?_, ?_, ?_, ?_⟩
  · intro h; simp [containerCall, containerDispatch, h]
  · intro h1 h2; simp [containerCall, containerDispatch, h1, h2]
  · intro h1 h2; simp [containerCall, containerDispatch, h1, h2]
  · intro h
    by_cases him : env.importResult = PhaseResult.kbrdInt
    · simp [containerCall, containerDispatch, him]
    · simp [containerCall, containerDispatch, him, h]
  · intro h1 h2 h3 h4 h5
    simp only [dispatchOutcomes, h1, h2, h3, h4]
    rcases h5 with h5 | ⟨h5, h6⟩ | ⟨h5, h6, h7⟩ <;>
      simp [runTestPhases, *]

/-- Witness for C5 (amended): a validate phase that raises yields a record
with a single BLOCKED outcome and no interrupt flag, while a
KeyboardInterrupt during the import propagates out of the container. -/
theorem C5_container_exceptions_witness :
    containerCall ⟨PhaseResult.ok, PhaseResult.ok, true, false, PhaseResult.ok,
      PhaseResult.ok, PhaseResult.raises, false, PhaseResult.ok⟩ =
      Except.ok ⟨[Outcome.BLOCKED], false⟩ ∧
    containerCall ⟨PhaseResult.ok, PhaseResult.kbrdInt, true, false, PhaseResult.ok,
      PhaseResult.ok, PhaseResult.ok, false, PhaseResult.ok⟩ = Except.error () := by
  constructor
  · have h := C5_container_exceptions ⟨PhaseResult.ok, PhaseResult.ok, true, false,
      PhaseResult.ok, PhaseResult.ok, PhaseResult.raises, false, PhaseResult.ok⟩
    have h5 := h.2.2.2.2 rfl rfl rfl rfl (Or.inr (Or.inr ⟨rfl, rfl, rfl⟩))
    rw [h.2.1 (by decide) rfl, h5]
  · exact (C5_container_exceptions ⟨PhaseResult.ok, PhaseResult.kbrdInt, true, false,
      PhaseResult.ok, PhaseResult.ok, PhaseResult.ok, false, PhaseResult.ok⟩).1 rfl

/-- C6: for a reportResult call whose resultKey was reported before, the
reporter answers blockedAlreadyUsed when the stored test-object hash equals
the current one, blockedNotUnique when the stored testId or stored details
dictionary differs from the current one, and accepts otherwise (same
testId and details on a different test object, i.e. another cycle); in the
two blocked cases the reporter's state is unchanged and the call returns
before persisting anything. -/
theorem C6_reportResult_duplicate (prev : List (String × PrevResult))
    (resultKey testId : String) (testObjHash : Nat)
    (resultDetails : List (String × String)) (p : PrevResult)
    (hprev : dictGet? prev resultKey = some p) :
    (p.testObjHash = testObjHash →
      reportResultDup prev resultKey testId testObjHash resultDetails =
        (prev, ReportAnswer.blockedAlreadyUsed)) ∧
    (p.testObjHash ≠ testObjHash →
      (p.testId ≠ testId ∨ p.details ≠ dictSet resultDetails "testId" testId) →
      reportResultDup prev resultKey testId testObjHash resultDetails =
        (prev, ReportAnswer.blockedNotUnique)) ∧
    (p.testObjHash ≠ testObjHash → p.testId = testId →
      p.details = dictSet resultDetails "testId" testId →
      reportResultDup prev resultKey testId testObjHash resultDetails =
        (prev, ReportAnswer.accepted)) := by
  refine ⟨?_, ?_, ?_⟩
  · intro h
    simp only [reportResultDup, hprev]
    rw [if_pos h]
  · intro h hdiff
    simp only [reportResultDup, hprev]
    rw [if_neg h, if_pos hdiff]
  · intro h hid hdet
    simp only [reportResultDup, hprev]
    rw [if_neg h, if_neg]
    push_neg
    exact ⟨hid, hdet⟩

/-- Witness for C6 at concrete inputs: the same key reported again by the
same test object (hash 5) is blocked as already used; reported by a
different object (hash 7) of the same test with identical details it is
accepted. -/
theorem C6_reportResult_duplicate_witness :
    reportResultDup [("k", ⟨"T1", 5, [("a", "b"), ("testId", "T1")]⟩)] "k" "T1" 5
        [("a", "b")] =
      ([("k", ⟨"T1", 5, [("a", "b"), ("testId", "T1")]⟩)],
        ReportAnswer.blockedAlreadyUsed) ∧
    reportResultDup [("k", ⟨"T1", 5, [("a", "b"), ("testId", "T1")]⟩)] "k" "T1" 7
        [("a", "b")] =
      ([("k", ⟨"T1", 5, [("a", "b"), ("testId", "T1")]⟩)], ReportAnswer.accepted) := by
  constructor
  · exact (C6_reportResult_duplicate [("k", ⟨"T1", 5, [("a", "b"), ("testId", "T1")]⟩)]
      "k" "T1" 5 [("a", "b")]
      ⟨"T1", 5, [("a", "b"), ("testId", "T1")]⟩ (by decide)).1 rfl
  · exact (C6_reportResult_duplicate [("k", ⟨"T1", 5, [("a", "b"), ("testId", "T1")]⟩)]
      "k" "T1" 7 [("a", "b")]
      ⟨"T1", 5, [("a", "b"), ("testId", "T1")]⟩ (by decide)).2.2 (by decide) rfl (by decide)

theorem publishFrom_spec (n : Nat) (C : List Nat) :
    ∀ (fuel : Nat) (q : List (Option Nat)) (p : Nat) (pub : List Nat),
      q.length = n → p ≤ n → pub = List.range p →
      (∀ i, i < p → i ∈ C) →
      (∀ i, i < n → q.getD i none = if i ∈ C ∧ p ≤ i then some i else none) →
      n - p ≤ fuel →
      RunnerInv n C ⟨(publishFrom fuel q p pub).1, (publishFrom fuel q p pub).2.1,
        (publishFrom fuel q p pub).2.2⟩ := by
  intro fuel
  induction fuel with
  | zero =>
    intro q p pub hlen hpn hpub hbelow hchar hfuel
    have hpn2 : p = n := by omega
    refine ⟨hlen, hpn, hpub, hbelow, ?_, hchar⟩
    intro hcontra
    exact absurd (show p < n from hcontra) (by omega)
  | succ fuel ih =>
    intro q p pub hlen hpn hpub hbelow hchar hfuel
    by_cases hpn2 : p < n
    · have hq := hchar p hpn2
      by_cases hpC : p ∈ C
      · have hq2 : q.getD p none = some p := by rw [hq]; simp [hpC]
        have hstep : publishFrom (fuel + 1) q p pub =
            publishFrom fuel (q.set p none) (p + 1) (pub ++ [p]) := by
          simp only [publishFrom, hq2]
        rw [hstep]
        apply ih
        · simp [hlen]
        · omega
        · rw [hpub]; simp [List.range_succ]
        · intro i hi
          rcases Nat.lt_succ_iff_lt_or_eq.mp hi with h | h
          · exact hbelow i h
          · subst h; exact hpC
        · intro i hin
          rw [List.getD_eq_getElem?_getD, List.getElem?_set]
          by_cases hip : p = i
          · subst hip
            have hplen : p < q.length := by omega
            simp only [if_pos rfl, if_pos hplen, Option.getD_some]
            have : ¬ (p + 1 ≤ p) := by omega
            simp [this]
          · rw [if_neg hip, ← List.getD_eq_getElem?_getD, hchar i hin]
            by_cases hiC : i ∈ C
            · by_cases hpi : p ≤ i
              · have h1 : p + 1 ≤ i := by omega
                simp [hiC, hpi, h1]
              · have h1 : ¬ (p + 1 ≤ i) := by omega
                simp [hiC, hpi, h1]
            · simp [hiC]
        · omega
      · have hq2 : q.getD p none = none := by rw [hq]; simp [hpC]
        have hstep : publishFrom (fuel + 1) q p pub = (q, p, pub) := by
          simp only [publishFrom, hq2]
        rw [hstep]
        exact ⟨hlen, hpn, hpub, hbelow, fun _ => hpC, hchar⟩
    · have hq : q.getD p none = none := by
        rw [List.getD_eq_getElem?_getD, List.getElem?_eq_none (by omega)]
        rfl
      have hstep : publishFrom (fuel + 1) q p pub = (q, p, pub) := by
        simp only [publishFrom, hq]
      rw [hstep]
      exact ⟨hlen, hpn, hpub, hbelow, fun h => absurd h hpn2, hchar⟩

theorem containerCallback_inv {n : Nat} {C : List Nat} {s : RunnerState}
    (h : RunnerInv n C s) {j : Nat} (hj : j < n) (hjC : j ∉ C) :
    RunnerInv n (j :: C) (containerCallback s j) := by
  obtain ⟨hlen, hpn, hpub, hbelow, hptr, hchar⟩ := h
  have hpj : s.resultsPointer ≤ j := by
    by_contra hlt
    exact hjC (hbelow j (by omega))
  have hmain := publishFrom_spec n (j :: C)
    ((s.resultsQueue.set j (some j)).length)
    (s.resultsQueue.set j (some j)) s.resultsPointer s.published
    (by simp [hlen]) hpn hpub
    (fun i hi => List.mem_cons_of_mem j (hbelow i hi))
    ?char (by simp [hlen])
  · exact hmain
  · intro i hin
    rw [List.getD_eq_getElem?_getD, List.getElem?_set]
    by_cases hij : j = i
    · subst hij
      have hjlen : j < s.resultsQueue.length := by omega
      simp only [if_pos rfl, if_pos hjlen, Option.getD_some]
      have : j ∈ j :: C ∧ s.resultsPointer ≤ j := ⟨List.mem_cons_self j C, hpj⟩
      simp [this]
    · rw [if_neg hij, ← List.getD_eq_getElem?_getD, hchar i hin]
      have hmem : (i ∈ j :: C) ↔ (i ∈ C) := by
        constructor
        · intro hh
          rcases List.mem_cons.mp hh with rfl | hh
          · exact absurd rfl hij
          · exact hh
        · exact List.mem_cons_of_mem j
      by_cases hiC : i ∈ C
      · simp [hiC, hmem.mpr hiC]
      · have : i ∉ j :: C := fun hh => hiC (hmem.mp hh)
        simp [hiC, this]

theorem foldl_callback_inv (n : Nat) :
    ∀ (L : List Nat) (C : List Nat) (s : RunnerState), RunnerInv n C s →
      L.Nodup → (∀ j ∈ L, j < n) → (∀ j ∈ L, j ∉ C) →
      ∃ D : List Nat, (∀ i, i ∈ D ↔ i ∈ L ∨ i ∈ C) ∧
        RunnerInv n D (L.foldl containerCallback s) := by
  intro L
  induction L with
  | nil =>
    intro C s hinv _ _ _
    exact ⟨C, fun i => by simp, hinv⟩
  | cons j L ih =>
    intro C s hinv hnd hbound hdisj
    have hstep : RunnerInv n (j :: C) (containerCallback s j) :=
      containerCallback_inv hinv (hbound j (List.mem_cons_self j L))
        (hdisj j (List.mem_cons_self j L))
    obtain ⟨D, hD, hinv2⟩ := ih (j :: C) (containerCallback s j) hstep
      (List.Nodup.of_cons hnd)
      (fun k hk => hbound k (List.mem_cons_of_mem j hk))
      (fun k hk => by
        intro hmem
        rcases List.mem_cons.mp hmem with rfl | hmem
        · exact (List.nodup_cons.mp hnd).1 hk
        · exact hdisj k (List.mem_cons_of_mem j hk) hmem)
    refine ⟨D, fun i => ?_, hinv2⟩
    rw [hD i]
    simp only [List.mem_cons]
    tauto

/-- C1: for every multi-threaded run — modelled as the submission of n
containers followed by their completions in an arbitrary order, each
completion invoking containerCallback — the sequence of container indices
published (flushed to the log, passed to testComplete, forwarded to the
writers and tallied) is exactly 0, 1, ..., n-1 in submission order, with
no gaps and no reordering: the callback fills the completed slot, publishes
only while the slot at the publish cursor is filled, and advances the
cursor past each published slot. -/
theorem C1_ordered_publication {n : Nat} {L : List Nat}
    (hperm : L.Perm (List.range n)) :
    (L.foldl containerCallback (initRunner n)).published = List.range n := by
  have hnd : L.Nodup := hperm.nodup_iff.mpr (List.nodup_range n)
  have hbound : ∀ j ∈ L, j < n := fun j hj => List.mem_range.mp (hperm.mem_iff.mp hj)
  have hinit : RunnerInv n [] (initRunner n) := by
    refine ⟨by simp [initRunner], by simp [initRunner], by simp [initRunner],
      fun i hi => absurd (show i < 0 from hi) (by omega),
      fun _ => List.not_mem_nil _, ?_⟩
    intro i hin
    simp only [initRunner]
    rw [List.getD_eq_getElem?_getD, List.getElem?_replicate]
    by_cases hi : i < n <;> simp [hi]
  obtain ⟨D, hD, hinv⟩ := foldl_callback_inv n L [] (initRunner n) hinit hnd hbound
    (by simp)
  obtain ⟨hlen, hpn, hpub, hbelow, hptr, hchar⟩ := hinv
  have hall : ∀ i, i < n → i ∈ D := fun i hi =>
    (hD i).mpr (Or.inl (hperm.mem_iff.mpr (List.mem_range.mpr hi)))
  have hp : (L.foldl containerCallback (initRunner n)).resultsPointer = n := by
    by_contra hne
    have hlt : (L.foldl containerCallback (initRunner n)).resultsPointer < n :=
      lt_of_le_of_ne hpn hne
    exact hptr hlt (hall _ hlt)
  rw [hpub, hp]

theorem mergeResult_singletons (e r : PerfResult) (he : e.samples = 1)
    (hr : r.samples = 1) (hse : e.stdDev = 0) (hsr : r.stdDev = 0) :
    (mergeResult e r).value = (e.value + r.value) / 2 ∧
    (mergeResult e r).samples = 2 ∧
    (mergeResult e r).stdDev = |e.value - r.value| / Real.sqrt 2 := by
  refine ⟨?_, ?_, ?_⟩
  · show (e.value * (e.samples : ℝ) + r.value * (r.samples : ℝ)) /
      ((e.samples : ℝ) + (r.samples : ℝ)) = (e.value + r.value) / 2
    rw [he, hr]; push_cast; ring_nf
  · show e.samples + r.samples = 2
    rw [he, hr]
  · show Real.sqrt _ = _
    rw [he, hr, hse, hsr]
    have harg : (((1 : ℕ) : ℝ) - 1) * (0 : ℝ) ^ 2 + (((1 : ℕ) : ℝ) - 1) * (0 : ℝ) ^ 2
        + ((1 : ℕ) : ℝ) * (e.value - (e.value * ((1 : ℕ) : ℝ) + r.value * ((1 : ℕ) : ℝ)) /
            (((1 : ℕ) : ℝ) + ((1 : ℕ) : ℝ))) ^ 2
        + ((1 : ℕ) : ℝ) * (r.value - (e.value * ((1 : ℕ) : ℝ) + r.value * ((1 : ℕ) : ℝ)) /
            (((1 : ℕ) : ℝ) + ((1 : ℕ) : ℝ))) ^ 2 = (e.value - r.value) ^ 2 / 2 := by
      push_cast; ring
    have hden : (((1 : ℕ) : ℝ) + ((1 : ℕ) : ℝ) - 1) = 1 := by push_cast; ring
    rw [hden, div_one, harg, Real.sqrt_div (sq_nonneg _), Real.sqrt_sq_eq_abs]

/-- C8: aggregating two parsed files that each hold one single-sample row
(samples=1, stdDev=0) for the same resultKey with values v1 and v2 yields a
single row with samples=2, value=(v1+v2)/2 and stdDev=|v1-v2|/sqrt 2; in
particular values 10 and 20 give value 15, samples 2 and a stdDev within
0.0001 of 7.0711. -/
theorem C8_aggregate_pair (k u : String) (b : Bool) (t v1 v2 : ℝ)
    (rd1 rd2 d1 d2 : List (String × String)) :
    ((aggregate [⟨rd1, [⟨k, v1, u, b, t, 1, 0, d1⟩]⟩,
        ⟨rd2, [⟨k, v2, u, b, t, 1, 0, d2⟩]⟩]).results =
      [mergeResult ⟨k, v1, u, b, t, 1, 0, d1⟩ ⟨k, v2, u, b, t, 1, 0, d2⟩] ∧
      (mergeResult ⟨k, v1, u, b, t, 1, 0, d1⟩ ⟨k, v2, u, b, t, 1, 0, d2⟩).value =
        (v1 + v2) / 2 ∧
      (mergeResult ⟨k, v1, u, b, t, 1, 0, d1⟩ ⟨k, v2, u, b, t, 1, 0, d2⟩).samples = 2 ∧
      (mergeResult ⟨k, v1, u, b, t, 1, 0, d1⟩ ⟨k, v2, u, b, t, 1, 0, d2⟩).stdDev =
        |v1 - v2| / Real.sqrt 2 ∧
      (mergeResult ⟨k, v1, u, b, t, 1, 0, d1⟩ ⟨k, v2, u, b, t, 1, 0, d2⟩).resultDetails =
        d2) ∧
    ((10 + 20 : ℝ) / 2 = 15 ∧ |(10 : ℝ) - 20| / Real.sqrt 2 = 10 / Real.sqrt 2 ∧
      |10 / Real.sqrt 2 - 7.0711| < (0.0001 : ℝ)) := by
  constructor
  · have hmerge := mergeResult_singletons ⟨k, v1, u, b, t, 1, 0, d1⟩
      ⟨k, v2, u, b, t, 1, 0, d2⟩ rfl rfl rfl rfl
    refine ⟨?_, hmerge.1, hmerge.2.1, hmerge.2.2, rfl⟩
    simp [aggregate, aggregateStep, dictGet?, dictSet]
  · refine ⟨by norm_num, by rw [show |(10 : ℝ) - 20| = 10 by rw [abs_of_nonpos] <;> norm_num], ?_⟩
    have hs2 : Real.sqrt 2 * Real.sqrt 2 = 2 := Real.mul_self_sqrt (by norm_num)
    have hpos : (0 : ℝ) < Real.sqrt 2 := Real.sqrt_pos.mpr (by norm_num)
    have heq : (10 : ℝ) / Real.sqrt 2 = 5 * Real.sqrt 2 := by
      rw [div_eq_iff (ne_of_gt hpos), mul_assoc, hs2]; norm_num
    have hlb : (1.414213 : ℝ) < Real.sqrt 2 := by
      nlinarith [hs2, Real.sqrt_nonneg 2]
    have hub : Real.sqrt 2 < (1.414214 : ℝ) := by
      nlinarith [hs2, Real.sqrt_nonneg 2]
    rw [heq, abs_lt]
    constructor <;> nlinarith [hlb, hub]

/-- Witness for C1 with three containers completing out of order (the third
first, then the first, then the second): the published sequence is still
0, 1, 2. -/
theorem C1_ordered_publication_witness :
    (([2, 0, 1] : List Nat).foldl containerCallback (initRunner 3)).published =
      List.range 3 :=
  C1_ordered_publication (by decide)

end PySysModel
